import Mathlib

/-!
Verification of the query routing and hybrid retrieval pipeline of the
chatbot-server repository.

Shallow embedding conventions:
 - Python strings are Lean `String`; `str.strip()` is `String.trim`,
   `str.lower()` is `String.toLower` (ASCII behaviour).
 - Python `None`-able values are `Option`; a Python function that can raise
   an exception is embedded in `Except Unit`.
 - External collaborators (the ChromaDB index, the embedding model and the
   generation LLM) are abstracted as function parameters: the index query is
   a pure function from a filter expression to a result list, the
   embedding-similarity pipeline is a similarity oracle and the generator is
   a text-to-text function.
 - JSON values are the inductive `Val`; JSON numbers are `ℚ` (the claims
   under verification never depend on float rounding).
-/

namespace ChatbotServer

/-- Python truthiness test plus `.strip()` emptiness for an optional string:
`if not s` is true for `None` and for `""`. -/
def pyFalsy : Option String → Bool
  | none => true
  | some s => s = ""

/-- Split a character list on a separator character; like Python
`str.split(sep)`, an empty input yields one empty piece. -/
def splitOnChar (sep : Char) : List Char → List (List Char)
  | [] => [[]]
  | c :: cs =>
    let r := splitOnChar sep cs
    if c = sep then [] :: r
    else
      match r with
      | [] => [[c]]
      | h :: t => (c :: h) :: t

/-- Python `str.splitlines()` restricted to `"\n"` separators (the only
line separator this repository produces). -/
def pySplitlines (s : String) : List String :=
  (splitOnChar '\n' s.data).map (fun l => String.mk l)

/-- Python `str.strip()`: remove leading and trailing whitespace. -/
def pyStrip (s : String) : String :=
  String.mk (((s.data.dropWhile Char.isWhitespace).reverse.dropWhile
    Char.isWhitespace).reverse)

/-- Python list slice `xs[-keep:]`.  For `keep = 0` the slice is `xs[-0:]`
which is `xs[0:]`, i.e. the whole list — this faithfully models the
CPython negative-zero slicing behaviour. -/
def pyTailSlice (keep : Nat) (xs : List α) : List α :=
  if keep = 0 then xs else xs.drop (xs.length - keep)

/-- `src/execute_prompt.py::_trim_conversation_context`.
Splits the transcript into lines, keeps the non-blank ones, and returns the
last `2 * max_pairs` of them joined by a newline; `None` for an empty or
blank input.  (Python `splitlines` is modelled as splitting on `"\n"`;
the blank-line filter makes the trailing-empty-piece difference of
`splitOn` irrelevant.) -/
def trimConversationContext (conversationContext : Option String) (maxPairs : Nat) :
    Option String :=
  if pyFalsy conversationContext then none
  else
    let s := conversationContext.getD ""
    let lines := (pySplitlines s).filter (fun ln => pyStrip ln ≠ "")
    if lines = [] then none
    else
      let keep := 2 * maxPairs
      let trimmedLines := pyTailSlice keep lines
      some (String.intercalate "\n" trimmedLines)

/-- The trimmer as the specification describes it: return only the trailing
`2 × max_pairs` non-empty lines joined by newline, or null if the input is
empty/blank.  "Trailing k lines" of a list `l` is `l.drop (l.length - k)`
(so for `k = 0` it is no lines at all). -/
def specTrimConversationContext (conversationContext : Option String) (maxPairs : Nat) :
    Option String :=
  if pyFalsy conversationContext then none
  else
    let s := conversationContext.getD ""
    let lines := (pySplitlines s).filter (fun ln => pyStrip ln ≠ "")
    if lines = [] then none
    else some (String.intercalate "\n" (lines.drop (lines.length - 2 * maxPairs)))

/-- C9, counterexample.  The claim quantifies over every maximum pair count,
but at `max_pairs = 0` the code keeps `lines[-0:]`, which in Python is the
whole list, whereas "the trailing `2 × 0` non-empty lines" are no lines at
all: on a two-line transcript the code returns the transcript while the
claimed behaviour returns the empty join. -/
theorem trim_context_zero_pairs_cex :
    trimConversationContext (some "User: hi\nAssistant: hello") 0 =
        some "User: hi\nAssistant: hello" ∧
      specTrimConversationContext (some "User: hi\nAssistant: hello") 0 = some "" ∧
      trimConversationContext (some "User: hi\nAssistant: hello") 0 ≠
        specTrimConversationContext (some "User: hi\nAssistant: hello") 0 := by
  refine ⟨by decide, by decide, by decide⟩

/-- C9, amended: for every transcript and every *positive* maximum pair
count, the trimmer returns exactly the trailing `2 × max_pairs` non-empty
lines joined by newline, and null if the input is empty or blank. -/
theorem trim_context_matches_spec_of_pos (ctx : Option String) (mp : Nat) (h : 0 < mp) :
    trimConversationContext ctx mp = specTrimConversationContext ctx mp := by
  have hk : 2 * mp ≠ 0 := by omega
  simp only [trimConversationContext, specTrimConversationContext, pyTailSlice, if_neg hk]

/-- C9 witness: at `max_pairs = 6` an 8-line transcript is returned
unchanged, and a 20-line transcript yields exactly its last 12 lines. -/
theorem trim_context_matches_spec_witness :
    (0 < 6 ∧
      trimConversationContext
          (some "U1\nA1\nU2\nA2\nU3\nA3\nU4\nA4") 6 =
        specTrimConversationContext
          (some "U1\nA1\nU2\nA2\nU3\nA3\nU4\nA4") 6) ∧
    trimConversationContext (some "U1\nA1\nU2\nA2\nU3\nA3\nU4\nA4") 6 =
      some "U1\nA1\nU2\nA2\nU3\nA3\nU4\nA4" ∧
    trimConversationContext
        (some "L01\nL02\nL03\nL04\nL05\nL06\nL07\nL08\nL09\nL10\nL11\nL12\nL13\nL14\nL15\nL16\nL17\nL18\nL19\nL20")
        6 =
      some "L09\nL10\nL11\nL12\nL13\nL14\nL15\nL16\nL17\nL18\nL19\nL20" := by
  refine ⟨⟨by decide, trim_context_matches_spec_of_pos _ 6 (by decide)⟩, by decide, by decide⟩

/-! ## JSON values and metadata filters (`src/metadata_filters.py`, `src/llm_utils.py`) -/

/-- JSON values as produced by `json.loads`; numbers are `ℚ`. -/
inductive Val where
  | null : Val
  | bool (b : Bool) : Val
  | num (q : ℚ) : Val
  | str (s : String) : Val
  | list (xs : List Val) : Val
  | dict (entries : List (String × Val)) : Val

/-- One internal filter, `{"field": ..., "operator": ..., "value": ...}`. -/
structure Filter where
  field : String
  operator : String
  value : Val

/-- Python `v is None` for a `dict.get` result: the key is missing or its
value is JSON `null` (Python `None`). -/
def pyIsNone : Option Val → Bool
  | none => true
  | some Val.null => true
  | some _ => false

/-- Whether a JSON value is the string sentinel `"inf"`. -/
def isInfSentinel : Val → Bool
  | Val.str s => s = "inf"
  | _ => false

/-- Python `v <= 0` on a JSON value: defined for numbers and booleans
(Python `bool` is an `int`), a `TypeError` otherwise. -/
def pyLeZero : Val → Except Unit Bool
  | Val.num q => .ok (decide (q ≤ 0))
  | Val.bool b => .ok (b = false)
  | _ => .error ()

/-- Python `float(v)` on a JSON value: numbers and booleans convert; other
values raise.  (Numeric strings would convert in Python; the pipeline under
verification never produces them, and the model treats them as a coercion
fault.) -/
def pyFloat : Val → Except Unit ℚ
  | Val.num q => .ok q
  | Val.bool b => .ok (if b then 1 else 0)
  | _ => .error ()

/-- `list(value) if isinstance(value, (list, tuple, set)) else [value]`. -/
def pyCoerceList : Val → List Val
  | Val.list xs => xs
  | v => [v]

/-- The `key == 'price'` arm of the per-entry loop of
`generate_serializeable_metadata_filters_from_query`, for a dict-shaped
price value. -/
def serializePriceEntry (key : String) (pairs : List (String × Val)) :
    Except Unit (List Filter) :=
  if pyIsNone (pairs.lookup "min") ∨ pyIsNone (pairs.lookup "max") then .ok []
  else
    match pyLeZero ((pairs.lookup "min").getD Val.null) with
    | .error e => .error e
    | .ok true => .ok []
    | .ok false =>
      if isInfSentinel ((pairs.lookup "max").getD Val.null) then .ok []
      else
        match pyFloat ((pairs.lookup "min").getD Val.null) with
        | .error e => .error e
        | .ok m =>
          match pyFloat ((pairs.lookup "max").getD Val.null) with
          | .error e => .error e
          | .ok M => .ok [⟨key, ">", Val.num m⟩, ⟨key, "<", Val.num M⟩]

/-- The body of the per-entry loop of
`generate_serializeable_metadata_filters_from_query`: the filter clauses one
`key: value` entry of the parsed metadata dict contributes. -/
def serializeEntry (validKeys : List String) (key : String) (value : Val) :
    Except Unit (List Filter) :=
  if key ∉ validKeys then .ok []
  else if key = "price" then
    match value with
    | Val.dict pairs => serializePriceEntry key pairs
    | _ => .ok []
  else
    if (pyCoerceList value).isEmpty then .ok []
    else .ok [⟨key, "in", Val.list (pyCoerceList value)⟩]

/-- The loop of `generate_serializeable_metadata_filters_from_query` over
the entries of the parsed metadata dict, appending each entry's clauses in
order; an uncaught Python exception aborts the whole call. -/
def serializeCore (validKeys : List String) :
    List (String × Val) → Except Unit (List Filter)
  | [] => .ok []
  | (k, v) :: rest =>
    match serializeEntry validKeys k v with
    | .error e => .error e
    | .ok fs =>
      match serializeCore validKeys rest with
      | .error e => .error e
      | .ok fsRest => .ok (fs ++ fsRest)

/-- Python `str.replace` (all non-overlapping occurrences, left to right).
The fuel argument is initialised to the text length and is consumed one
character per step; since every step also consumes at least one character,
the `0, l` arm is unreachable. -/
def pyReplaceAux (pat repl : List Char) : Nat → List Char → List Char
  | _, [] => []
  | 0, l => l
  | fuel + 1, c :: cs =>
    if pat ≠ [] ∧ pat.isPrefixOf (c :: cs) then
      repl ++ pyReplaceAux pat repl fuel ((c :: cs).drop pat.length)
    else
      c :: pyReplaceAux pat repl fuel cs

/-- Python `s.replace(pat, repl)` as used by `parse_json_output`. -/
def pyReplace (s pat repl : String) : String :=
  String.mk (pyReplaceAux pat.data repl.data s.data.length s.data)

/-- `src/llm_utils.py::parse_json_output`.  The upstream JSON parser
(`json.loads`) is abstracted as `jsonLoads`, returning `none` exactly when
it raises `JSONDecodeError`.  On a parse failure the function returns `{}`
(the `except` branch), not Python `None`. -/
def parse_json_output (jsonLoads : String → Option Val) (llmOutput : String) : Val :=
  let cleaned :=
    pyReplace (pyReplace (pyReplace (pyReplace llmOutput "\n" "") "\x27" "") "\x7d\x7d" "\x7d")
      "\x7b\x7b" "\x7b"
  match jsonLoads cleaned with
  | some v => v
  | none => Val.dict []

/-- `src/metadata_filters.py::generate_metadata_filters_from_query`: the
prompt construction and generation call are abstracted into the `llm`
oracle; its output is parsed by `parse_json_output`. -/
def generate_metadata_filters_from_query (llm : String → String)
    (jsonLoads : String → Option Val) (query : String) : Val :=
  parse_json_output jsonLoads (llm query)

/-- `src/metadata_filters.py::generate_serializeable_metadata_filters_from_query`.
Returns `ok none` only when the parsed metadata is Python `None`; iterating
`.items()` on a non-dict value raises (`error`). -/
def generate_serializeable_metadata_filters_from_query (llm : String → String)
    (jsonLoads : String → Option Val) (validKeys : List String) (query : String) :
    Except Unit (Option (List Filter)) :=
  match generate_metadata_filters_from_query llm jsonLoads query with
  | Val.null => .ok none
  | Val.dict entries => (serializeCore validKeys entries).map some
  | _ => .error ()

/-! ## Product retrieval engine (`src/query_products.py`) -/

/-- One Chroma comparison clause.  `isIn` is the `{field: {$in: [...]}}`
clause. -/
inductive Clause where
  | gt (field : String) (value : Val)
  | lt (field : String) (value : Val)
  | isIn (field : String) (values : List Val)

/-- A Chroma `where` expression with exactly one top-level operator: either
a single bare clause or an `$and` of clauses.  The Python `{}` "no filter"
dict is represented as `none` at the use sites (the helper
`_run_chroma_query` turns `{}` into `None` before querying). -/
inductive WhereExpr where
  | single (c : Clause)
  | conj (clauses : List Clause)

/-- The clause one internal filter contributes in
`_build_chroma_where_from_filters`; `none` when the loop `continue`s
(missing/empty field, or an operator other than `>`, `<`, `in`). -/
def clauseOfFilter (f : Filter) : Option Clause :=
  if f.field = "" then none
  else if f.operator = ">" then some (.gt f.field f.value)
  else if f.operator = "<" then some (.lt f.field f.value)
  else if f.operator = "in" then some (.isIn f.field (pyCoerceList f.value))
  else none

/-- `src/query_products.py::_build_chroma_where_from_filters`: `none` is the
empty dict `{}` ("no filters"); a single clause is returned unwrapped; two
or more clauses are combined under `$and`. -/
def buildChromaWhere (filters : Option (List Filter)) : Option WhereExpr :=
  match filters with
  | none => none
  | some fs =>
    match fs.filterMap clauseOfFilter with
    | [] => none
    | [c] => some (.single c)
    | c :: c2 :: cs => some (.conj (c :: c2 :: cs))

/-- `_filters_without_low_importance`: keep a filter unless its field occurs
in the importance ordering strictly after position `dropAfterIndex`. -/
def filtersWithoutLowImportance (importanceOrder : List String)
    (currentFilters : List Filter) (dropAfterIndex : Nat) : List Filter :=
  if importanceOrder.length ≤ dropAfterIndex + 1 then currentFilters
  else
    let toDrop := importanceOrder.drop (dropAfterIndex + 1)
    currentFilters.filter (fun f => f.field ∉ toDrop)

/-- The relaxation loop of `get_relevant_products_from_query` (the
`for i in range(len(importance_order))` loop plus the final unfiltered
fallback).  `runQuery` abstracts `_run_chroma_query` with the fixed query
embedding and `limit=20`; `res` is the last result list seen so far. -/
def relaxLoop (runQuery : Option WhereExpr → List α) (importanceOrder : List String)
    (filters : List Filter) (res : List α) (i : Nat) : List α :=
  if i < importanceOrder.length then
    let reduced := filtersWithoutLowImportance importanceOrder filters i
    let r := runQuery (buildChromaWhere (some reduced))
    if 5 ≤ r.length then r
    else relaxLoop runQuery importanceOrder filters r (i + 1)
  else if res.length < 5 then runQuery none
  else res
termination_by importanceOrder.length - i

/-- `src/query_products.py::get_relevant_products_from_query`, given the
already-generated filter list (the LLM filter generation is the previous
section) and the client's importance ordering. -/
def getRelevantProductsFromQuery (runQuery : Option WhereExpr → List α)
    (importanceOrder : List String) (filters : Option (List Filter)) : List α :=
  match buildChromaWhere filters with
  | none => runQuery none
  | some w =>
    let fs := filters.getD []
    let res := runQuery (some w)
    if res.length < 10 ∧ fs.isEmpty = false then relaxLoop runQuery importanceOrder fs res 0
    else res

/-! ## Theorems about the filter generator (C3, C6, C7) -/

/-- Every clause the price arm contributes carries the entry's key. -/
theorem serializePriceEntry_field_eq {k : String} {pairs : List (String × Val)}
    {l : List Filter} (h : serializePriceEntry k pairs = .ok l) :
    ∀ f ∈ l, f.field = k := by
  intro f hf
  unfold serializePriceEntry at h
  split at h
  · cases h; simp at hf
  · split at h
    · exact absurd h (by simp)
    · cases h; simp at hf
    · split at h
      · cases h; simp at hf
      · split at h
        · exact absurd h (by simp)
        · split at h
          · exact absurd h (by simp)
          · cases h
            rcases List.mem_cons.mp hf with rfl | hf2
            · rfl
            · rcases List.mem_cons.mp hf2 with rfl | hf3
              · rfl
              · simp at hf3

/-- Every clause an entry contributes carries that entry's key as field. -/
theorem serializeEntry_field_eq {vk : List String} {k : String} {v : Val}
    {l : List Filter} (h : serializeEntry vk k v = .ok l) :
    ∀ f ∈ l, f.field = k := by
  intro f hf
  unfold serializeEntry at h
  split at h
  · cases h; simp at hf
  · split at h
    · split at h
      · exact serializePriceEntry_field_eq h f hf
      · cases h; simp at hf
    · split at h
      · cases h; simp at hf
      · cases h
        rcases List.mem_cons.mp hf with rfl | hf2
        · rfl
        · simp at hf2

/-- Unfolding `serializeEntry` for a whitelisted `price` key with a
dict-shaped value. -/
theorem serializeEntry_price_eq {vk : List String} (pairs : List (String × Val))
    (hvk : "price" ∈ vk) :
    serializeEntry vk "price" (Val.dict pairs) = serializePriceEntry "price" pairs := by
  unfold serializeEntry
  rw [if_neg (by simpa using hvk), if_pos rfl]

/-- An entry whose key is outside the whitelist contributes no clause. -/
theorem serializeEntry_not_valid {vk : List String} {k : String} {v : Val}
    {l : List Filter} (h : serializeEntry vk k v = .ok l) (hk : k ∉ vk) :
    l = [] := by
  unfold serializeEntry at h
  rw [if_pos hk] at h
  cases h; rfl

/-- C7 first half, core lemma: every produced clause references a
whitelisted field. -/
theorem serializeCore_fields {vk : List String} :
    ∀ {entries : List (String × Val)} {fs : List Filter},
      serializeCore vk entries = .ok fs → ∀ f ∈ fs, f.field ∈ vk := by
  intro entries
  induction entries with
  | nil => intro fs h f hf; cases h; simp at hf
  | cons kv rest ih =>
    intro fs h f hf
    obtain ⟨k, v⟩ := kv
    unfold serializeCore at h
    split at h
    · exact absurd h (by simp)
    · rename_i l hentry
      split at h
      · exact absurd h (by simp)
      · rename_i fsRest hrest
        cases h
        rcases List.mem_append.mp hf with hmem | hmem
        · by_cases hkvk : k ∈ vk
          · rw [serializeEntry_field_eq hentry f hmem]; exact hkvk
          · rw [serializeEntry_not_valid hentry hkvk] at hmem; simp at hmem
        · exact ih hrest f hmem

/-- No entry with key `k` means no clause with field `k`. -/
theorem serializeCore_filter_not_mem {vk : List String} {k : String} :
    ∀ {entries : List (String × Val)} {fs : List Filter},
      k ∉ entries.map Prod.fst → serializeCore vk entries = .ok fs →
      fs.filter (fun f => f.field = k) = [] := by
  intro entries
  induction entries with
  | nil => intro fs _ h; cases h; rfl
  | cons kv rest ih =>
    intro fs hk h
    obtain ⟨k0, v0⟩ := kv
    unfold serializeCore at h
    split at h
    · exact absurd h (by simp)
    · rename_i l hentry
      split at h
      · exact absurd h (by simp)
      · rename_i fsRest hrest
        cases h
        rw [List.filter_append]
        have hk0 : k0 ≠ k := by
          intro hEq; exact hk (by simp [hEq])
        have hl : l.filter (fun f => f.field = k) = [] := by
          rw [List.filter_eq_nil_iff]
          intro f hf
          have := serializeEntry_field_eq hentry f hf
          simp [this, hk0]
        rw [hl, ih (fun hmem => hk (by simp [hmem])) hrest]
        rfl

/-- The clauses with field `k` are exactly the clauses contributed by the
(unique) entry with key `k`. -/
theorem serializeCore_filter_key {vk : List String} {k : String} {v : Val} :
    ∀ {entries : List (String × Val)} {fs : List Filter},
      (entries.map Prod.fst).Nodup → (k, v) ∈ entries →
      serializeCore vk entries = .ok fs →
      ∃ l, serializeEntry vk k v = .ok l ∧ fs.filter (fun f => f.field = k) = l := by
  intro entries
  induction entries with
  | nil => intro fs _ hmem; simp at hmem
  | cons kv rest ih =>
    intro fs hnd hmem h
    obtain ⟨k0, v0⟩ := kv
    unfold serializeCore at h
    split at h
    · exact absurd h (by simp)
    · rename_i l hentry
      split at h
      · exact absurd h (by simp)
      · rename_i fsRest hrest
        cases h
        rw [List.map_cons, List.nodup_cons] at hnd
        rcases List.mem_cons.mp hmem with hEq | hmem'
        · injection hEq with hk hv
          subst hk; subst hv
          refine ⟨l, hentry, ?_⟩
          rw [List.filter_append]
          have hl : l.filter (fun f => f.field = k) = l :=
            List.filter_eq_self.mpr (fun f hf => by
              simp [serializeEntry_field_eq hentry f hf])
          have hrestnil : fsRest.filter (fun f => f.field = k) = [] :=
            serializeCore_filter_not_mem hnd.1 hrest
          rw [hl, hrestnil, List.append_nil]
        · have hk0 : k0 ≠ k := by
            intro hEq
            exact hnd.1 (hEq ▸ (List.mem_map.mpr ⟨(k, v), hmem', rfl⟩))
          obtain ⟨l', hentry', hfilter⟩ := ih hnd.2 hmem' hrest
          refine ⟨l', hentry', ?_⟩
          rw [List.filter_append, hfilter]
          have hl : l.filter (fun f => f.field = k) = [] := by
            rw [List.filter_eq_nil_iff]
            intro f hf
            simp [serializeEntry_field_eq hentry f hf, hk0]
          rw [hl, List.nil_append]

/-- C3 (code bug).  When the generation service's structured-filter output
cannot be parsed at all (`json.loads` raises on every cleaned input, modelled
by `fun _ => none`), `parse_json_output` returns the empty dict `{}` — its
own docstring promises `None` — so
`generate_serializeable_metadata_filters_from_query` returns an empty filter
list (`ok (some [])`), not null (`ok none`).  The second half of the claim
holds: the caller treats an empty filter list exactly like no filter and
falls back to an unfiltered semantic search. -/
theorem parse_failure_returns_empty_list_not_null :
    generate_serializeable_metadata_filters_from_query (fun _ => "this is not json")
        (fun _ => none) ["gender", "price"] "red shirt" = .ok (some []) ∧
    (Except.ok (some ([] : List Filter)) : Except Unit (Option (List Filter))) ≠
        .ok none ∧
    ∀ (α : Type) (runQuery : Option WhereExpr → List α) (order : List String),
      getRelevantProductsFromQuery runQuery order (some []) = runQuery none := by
  refine ⟨rfl, by simp, fun α runQuery order => rfl⟩

/-- C6.  In a Filter Spec whose `price` entry has a numeric `min`:
if `min ≤ 0` or `max` is the `"inf"` sentinel, the generated filter list
contains no price clause at all; if `min > 0` and `max` is a (bounded)
number, it contains exactly the two clauses `price > min` and
`price < max`. -/
theorem price_range_filter_clauses (vk : List String)
    (entries pairs : List (String × Val)) (m : ℚ)
    (hnd : (entries.map Prod.fst).Nodup)
    (hmem : ("price", Val.dict pairs) ∈ entries)
    (hmin : pairs.lookup "min" = some (Val.num m)) :
    ((m ≤ 0 ∨ pairs.lookup "max" = some (Val.str "inf")) →
      ∀ fs, serializeCore vk entries = .ok fs →
        fs.filter (fun f => f.field = "price") = []) ∧
    (∀ M : ℚ, 0 < m → pairs.lookup "max" = some (Val.num M) → "price" ∈ vk →
      ∀ fs, serializeCore vk entries = .ok fs →
        fs.filter (fun f => f.field = "price") =
          [⟨"price", ">", Val.num m⟩, ⟨"price", "<", Val.num M⟩]) := by
  constructor
  · intro hopen fs hser
    obtain ⟨l, hentry, hfilter⟩ := serializeCore_filter_key hnd hmem hser
    rw [hfilter]
    by_cases hvk : "price" ∈ vk
    · rw [serializeEntry_price_eq pairs hvk] at hentry
      unfold serializePriceEntry at hentry
      rcases Option.eq_none_or_eq_some (pairs.lookup "max") with hmax | ⟨mv, hmax⟩
      · rw [hmin, hmax] at hentry
        rw [if_pos (by simp [pyIsNone])] at hentry
        cases hentry; rfl
      · rw [hmin, hmax] at hentry
        rcases hopen with hle | hinf
        · by_cases hnullv : pyIsNone (some mv) = true
          · rw [if_pos (Or.inr hnullv)] at hentry
            cases hentry; rfl
          · rw [if_neg (not_or.mpr ⟨by simp [pyIsNone], hnullv⟩)] at hentry
            simp only [Option.getD_some, pyLeZero] at hentry
            rw [show (decide (m ≤ 0)) = true by simpa using hle] at hentry
            cases hentry; rfl
        · rw [hmax] at hinf
          injection hinf with hmv
          subst hmv
          rw [if_neg (by simp [pyIsNone])] at hentry
          simp only [Option.getD_some, pyLeZero] at hentry
          rcases hdec : decide (m ≤ 0) with _ | _
          · rw [hdec] at hentry
            rw [if_pos (by simp [isInfSentinel])] at hentry
            cases hentry; rfl
          · rw [hdec] at hentry
            cases hentry; rfl
    · rw [serializeEntry_not_valid hentry hvk]
  · intro M hpos hmax hvk fs hser
    obtain ⟨l, hentry, hfilter⟩ := serializeCore_filter_key hnd hmem hser
    rw [hfilter]
    rw [serializeEntry_price_eq pairs hvk] at hentry
    unfold serializePriceEntry at hentry
    rw [hmin, hmax] at hentry
    rw [if_neg (by simp [pyIsNone])] at hentry
    simp only [Option.getD_some, pyLeZero] at hentry
    rw [show (decide (m ≤ 0)) = false by simpa using not_le.mpr hpos] at hentry
    rw [if_neg (by simp [isInfSentinel])] at hentry
    simp only [pyFloat] at hentry
    cases hentry; rfl

/-- C6 witness: the Filter Spec `{price: {min: 0, max: "inf"}}` (alongside a
categorical field) produces zero price-related clauses. -/
theorem price_range_filter_clauses_witness :
    serializeCore ["gender", "price"]
        [("gender", Val.list [Val.str "Men"]),
         ("price", Val.dict [("min", Val.num 0), ("max", Val.str "inf")])] =
      .ok [⟨"gender", "in", Val.list [Val.str "Men"]⟩] ∧
    List.filter (fun f => f.field = "price")
        [(⟨"gender", "in", Val.list [Val.str "Men"]⟩ : Filter)] = [] := by
  refine ⟨rfl, ?_⟩
  exact (price_range_filter_clauses ["gender", "price"]
      [("gender", Val.list [Val.str "Men"]),
       ("price", Val.dict [("min", Val.num 0), ("max", Val.str "inf")])]
      [("min", Val.num 0), ("max", Val.str "inf")] 0
      (by simp)
      (List.mem_cons_of_mem _ (List.mem_cons_self _ _))
      rfl).1 (Or.inl le_rfl) _ rfl

/-- C7.  Every clause generated by the Filter Spec generator references a
whitelisted field (non-whitelisted fields are dropped silently), and a
non-price entry whose value coerces to the empty list yields no clause. -/
theorem filter_clauses_respect_whitelist (vk : List String)
    (entries : List (String × Val)) :
    (∀ fs, serializeCore vk entries = .ok fs → ∀ f ∈ fs, f.field ∈ vk) ∧
    (∀ k, k ≠ "price" → (entries.map Prod.fst).Nodup →
      (k, Val.list []) ∈ entries →
      ∀ fs, serializeCore vk entries = .ok fs →
        fs.filter (fun f => f.field = k) = []) := by
  constructor
  · intro fs h f hf
    exact serializeCore_fields h f hf
  · intro k hk hnd hmem fs hser
    obtain ⟨l, hentry, hfilter⟩ := serializeCore_filter_key hnd hmem hser
    rw [hfilter]
    by_cases hvk : k ∈ vk
    · unfold serializeEntry at hentry
      rw [if_neg (by simpa using hvk), if_neg hk] at hentry
      rw [if_pos (by simp [pyCoerceList])] at hentry
      cases hentry; rfl
    · exact serializeEntry_not_valid hentry hvk

/-- C7 witness: with whitelist `["gender"]`, the entries
`{unknownField: "x", gender: ["Men"], season: []}` produce exactly one
clause, and its field is whitelisted; the empty-list `season` entry (were it
whitelisted) would also be dropped. -/
theorem filter_clauses_respect_whitelist_witness :
    serializeCore ["gender", "season"]
        [("unknownField", Val.str "x"), ("gender", Val.list [Val.str "Men"]),
         ("season", Val.list [])] =
      .ok [⟨"gender", "in", Val.list [Val.str "Men"]⟩] ∧
    (⟨"gender", "in", Val.list [Val.str "Men"]⟩ : Filter).field ∈
      ["gender", "season"] ∧
    List.filter (fun f => f.field = "season")
        [(⟨"gender", "in", Val.list [Val.str "Men"]⟩ : Filter)] = [] := by
  refine ⟨rfl, ?_, ?_⟩
  · exact (filter_clauses_respect_whitelist ["gender", "season"]
      [("unknownField", Val.str "x"), ("gender", Val.list [Val.str "Men"]),
       ("season", Val.list [])]).1 _ rfl _ (List.mem_singleton_self _)
  · exact (filter_clauses_respect_whitelist ["gender", "season"]
      [("unknownField", Val.str "x"), ("gender", Val.list [Val.str "Men"]),
       ("season", Val.list [])]).2 "season" (by decide) (by simp)
      (by simp) _ rfl

/-! ## Theorems about the relaxation loop (C1) -/

/-- In a duplicate-free list, an element is among the first `k` positions
iff it is not among the later ones. -/
theorem mem_take_iff_not_mem_drop {l : List String} (hnd : l.Nodup) {a : String}
    (ha : a ∈ l) (k : Nat) : a ∈ l.take k ↔ a ∉ l.drop k := by
  have hsplit : l.take k ++ l.drop k = l := List.take_append_drop k l
  have hnd2 : (l.take k ++ l.drop k).Nodup := by rw [hsplit]; exact hnd
  have hdisj : List.Disjoint (l.take k) (l.drop k) :=
    List.disjoint_of_nodup_append hnd2
  constructor
  · intro h1 h2
    exact hdisj h1 h2
  · intro h2
    rcases List.mem_append.mp (by rw [hsplit]; exact ha) with h | h
    · exact h
    · exact absurd h h2

/-- When every filter field occurs in the (duplicate-free) importance
ordering, the relaxation step `i` keeps exactly the fields among the first
`i + 1` entries of the ordering — the most important ones. -/
theorem filtersWithoutLowImportance_eq_filter_take (order : List String)
    (fs : List Filter) (i : Nat) (hnd : order.Nodup)
    (hfield : ∀ f ∈ fs, f.field ∈ order) :
    filtersWithoutLowImportance order fs i =
      fs.filter (fun f => f.field ∈ order.take (i + 1)) := by
  unfold filtersWithoutLowImportance
  split
  · rename_i hge
    rw [List.take_of_length_le hge]
    exact (List.filter_eq_self.mpr (fun f hf => by
      simpa using hfield f hf)).symm
  · apply List.filter_congr
    intro f hf
    simp only [decide_eq_decide]
    exact (mem_take_iff_not_mem_drop hnd (hfield f hf) (i + 1)).symm

/-- Unrolling of the relaxation loop: starting at cursor `i`, the loop
returns the first remaining step whose result has at least 5 elements; if
none qualifies it re-examines the final step's result (the last value of
`res`) and falls back to one unfiltered query when it is still below 5. -/
theorem relaxLoop_eq (runQuery : Option WhereExpr → List α) (order : List String)
    (fs : List Filter) :
    ∀ (k i : Nat) (res : List α), order.length - i = k →
      relaxLoop runQuery order fs res i =
        (match ((List.range k).map (fun d =>
            runQuery (buildChromaWhere
              (some (filtersWithoutLowImportance order fs (i + d)))))).find?
            (fun r => 5 ≤ r.length) with
         | some r => r
         | none =>
           let last := if i < order.length then
               runQuery (buildChromaWhere
                 (some (filtersWithoutLowImportance order fs (order.length - 1))))
             else res
           if last.length < 5 then runQuery none else last) := by
  intro k
  induction k with
  | zero =>
    intro i res hk
    have hni : ¬ i < order.length := by omega
    rw [relaxLoop, if_neg hni]
    simp only [List.range_zero, List.map_nil, List.find?_nil, if_neg hni]
  | succ k ih =>
    intro i res hk
    have hi : i < order.length := by omega
    rw [relaxLoop, if_pos hi]
    rw [List.range_succ_eq_map, List.map_cons]
    simp only [Nat.add_zero]
    by_cases h5 : 5 ≤ (runQuery (buildChromaWhere
        (some (filtersWithoutLowImportance order fs i)))).length
    · rw [List.find?_cons_of_pos _ (by simpa using h5), if_pos h5]
    · rw [List.find?_cons_of_neg _ (by simpa using h5), if_neg h5]
      rw [List.map_map]
      have hmaps : (List.range k).map ((fun d =>
          runQuery (buildChromaWhere
            (some (filtersWithoutLowImportance order fs (i + d))))) ∘ Nat.succ) =
          (List.range k).map (fun d =>
            runQuery (buildChromaWhere
              (some (filtersWithoutLowImportance order fs (i + 1 + d))))) := by
        apply List.map_congr_left
        intro d _
        simp only [Function.comp_apply]
        have : i + d.succ = i + 1 + d := by omega
        rw [this]
      rw [hmaps]
      rw [ih (i + 1) _ (by omega)]
      rcases hfind : ((List.range k).map (fun d =>
          runQuery (buildChromaWhere
            (some (filtersWithoutLowImportance order fs (i + 1 + d)))))).find?
          (fun r => 5 ≤ r.length) with _ | r
      · rw [hfind]
        simp only [if_pos hi]
        by_cases hlast : i + 1 < order.length
        · simp only [if_pos hlast]
        · have hieq : i = order.length - 1 := by omega
          simp only [if_neg hlast]
          rw [hieq]
      · rw [hfind]

/-- C1.  For a non-empty, well-formed Filter Spec whose fields all occur in
the (duplicate-free) importance ordering, if the full-filter vector search
returns fewer than 10 results, the engine returns the first relaxation
step's result with at least 5 elements — step `i` keeping exactly the
fields among the `i + 1` most important — and, if no step qualifies,
returns the result of one final unfiltered search regardless of its size. -/
theorem product_relaxation_follows_importance_order
    (runQuery : Option WhereExpr → List α) (order : List String)
    (fs : List Filter) (hfs : fs ≠ [])
    (hcl : ∀ f ∈ fs, (clauseOfFilter f).isSome)
    (hfield : ∀ f ∈ fs, f.field ∈ order)
    (hnd : order.Nodup)
    (hfew : (runQuery (buildChromaWhere (some fs))).length < 10) :
    getRelevantProductsFromQuery runQuery order (some fs) =
      match ((List.range order.length).map (fun i =>
          runQuery (buildChromaWhere
            (some (fs.filter (fun f => f.field ∈ order.take (i + 1))))))).find?
          (fun r => 5 ≤ r.length) with
      | some r => r
      | none => runQuery none := by
  have hlen : 0 < order.length := by
    obtain ⟨f0, hf0⟩ := List.exists_mem_of_ne_nil fs hfs
    exact List.length_pos.mpr (List.ne_nil_of_mem (hfield f0 hf0))
  obtain ⟨w, hw⟩ : ∃ w, buildChromaWhere (some fs) = some w := by
    obtain ⟨f0, hf0⟩ := List.exists_mem_of_ne_nil fs hfs
    obtain ⟨c0, hc0⟩ := Option.isSome_iff_exists.mp (hcl f0 hf0)
    have hc0mem : c0 ∈ fs.filterMap clauseOfFilter :=
      List.mem_filterMap.mpr ⟨f0, hf0, hc0⟩
    rcases hcase : fs.filterMap clauseOfFilter with _ | ⟨c, _ | ⟨c2, cs⟩⟩
    · rw [hcase] at hc0mem; simp at hc0mem
    · exact ⟨.single c, by simp [buildChromaWhere, hcase]⟩
    · exact ⟨.conj (c :: c2 :: cs), by simp [buildChromaWhere, hcase]⟩
  have hred : ∀ i, filtersWithoutLowImportance order fs i =
      fs.filter (fun f => f.field ∈ order.take (i + 1)) :=
    fun i => filtersWithoutLowImportance_eq_filter_take order fs i hnd hfield
  have hfull : filtersWithoutLowImportance order fs (order.length - 1) = fs := by
    unfold filtersWithoutLowImportance
    rw [if_pos (by omega)]
  unfold getRelevantProductsFromQuery
  rw [hw]
  simp only [Option.getD_some]
  rw [hw] at hfew
  rw [if_pos ⟨hfew, by
    rcases fs with _ | ⟨f, fsr⟩
    · exact absurd rfl hfs
    · rfl⟩]
  rw [relaxLoop_eq runQuery order fs order.length 0 _ (by omega)]
  simp only [Nat.zero_add, if_pos hlen, hred]
  rcases hfind : ((List.range order.length).map (fun i =>
      runQuery (buildChromaWhere
        (some (fs.filter (fun f => f.field ∈ order.take (i + 1))))))).find?
      (fun r => 5 ≤ r.length) with _ | r
  · rw [hfind]
    have hlastmem : runQuery (buildChromaWhere
        (some (fs.filter (fun f => f.field ∈ order.take (order.length - 1 + 1))))) ∈
        ((List.range order.length).map (fun i =>
          runQuery (buildChromaWhere
            (some (fs.filter (fun f => f.field ∈ order.take (i + 1))))))) :=
      List.mem_map.mpr ⟨order.length - 1, List.mem_range.mpr (by omega), rfl⟩
    have hsmall := List.find?_eq_none.mp hfind _ hlastmem
    have hsmall2 : (runQuery (buildChromaWhere
        (some (fs.filter (fun f => f.field ∈ order.take (order.length - 1 + 1)))))).length < 5 := by
      simpa [not_le] using hsmall
    rw [if_pos hsmall2]
  · rw [hfind]

/-- A demo index for the relaxation witness: the two-field `$and` query
finds 3 products, the relaxed single-clause query finds 6, an unfiltered
query finds 1. -/
def demoRunQuery : Option WhereExpr → List Nat
  | none => [0]
  | some (WhereExpr.single _) => [10, 11, 12, 13, 14, 15]
  | some (WhereExpr.conj _) => [1, 2, 3]

/-- A demo two-field Filter Spec. -/
def demoFilters : List Filter :=
  [⟨"gender", "in", Val.list [Val.str "Men"]⟩,
   ⟨"season", "in", Val.list [Val.str "Fall"]⟩]

/-- C1 witness: with importance order `[gender, season]`, the full 2-field
filter returns 3 (< 10) results, so relaxation runs; the first step (keep
`gender` only) returns 6 (≥ 5) results and the engine returns them. -/
theorem product_relaxation_witness :
    getRelevantProductsFromQuery demoRunQuery ["gender", "season"] (some demoFilters) =
      [10, 11, 12, 13, 14, 15] := by
  rw [product_relaxation_follows_importance_order demoRunQuery ["gender", "season"]
    demoFilters
    (by unfold demoFilters; exact List.cons_ne_nil _ _)
    (by decide) (by decide) (by decide) (by decide)]
  rfl

/-! ## FAQ hybrid retriever (`src/query_faq_chroma.py`) -/

/-- Python `str.lower()` (ASCII). -/
def pyLower (s : String) : String :=
  String.mk (s.data.map Char.toLower)

/-- Python `needle in hay` substring test. -/
def containsSub (needle : List Char) : List Char → Bool
  | [] => needle.isEmpty
  | c :: cs => needle.isPrefixOf (c :: cs) || containsSub needle cs

/-- Python `needle in hay` on strings. -/
def pyInStr (needle hay : String) : Bool :=
  containsSub needle.data hay.data

/-- One FAQ entry's Chroma metadata: `{question, answer, keywords}` (the
ingestion script always stores all three; `client_site`/`source` are unused
by the retriever). -/
structure FaqMeta where
  question : String
  answer : String
  keywords : List String

/-- `src/query_faq_chroma.py::_normalize_keywords`. -/
def normalizeKeywords (kwList : List String) : List String :=
  kwList.filterMap (fun kw =>
    if pyStrip kw = "" then none else some (pyLower (pyStrip kw)))

/-- The indexed loop inside `_keyword_match`: collect the indices of the
entries one of whose normalized keyword phrases occurs in the normalized
query. -/
def keywordMatchAux (queryNorm : String) : Nat → List FaqMeta → List Nat
  | _, [] => []
  | idx, m :: rest =>
    if m.keywords.isEmpty then keywordMatchAux queryNorm (idx + 1) rest
    else if (normalizeKeywords m.keywords).any
        (fun kw => kw ≠ "" && pyInStr kw queryNorm) then
      idx :: keywordMatchAux queryNorm (idx + 1) rest
    else keywordMatchAux queryNorm (idx + 1) rest

/-- `src/query_faq_chroma.py::_keyword_match`. -/
def keywordMatch (userQuery : String) (metadatas : List FaqMeta) : List Nat :=
  if userQuery = "" then []
  else if String.intercalate " " (normalizeKeywords [userQuery]) = "" then []
  else keywordMatchAux (String.intercalate " " (normalizeKeywords [userQuery]))
    0 metadatas

/-- One semantic match handed to the synthesis step. -/
structure FaqMatch where
  question : String
  answer : String
  score : ℚ

/-- Stable insertion of index `i` into an index list sorted by decreasing
similarity. -/
def insertDesc (sims : List ℚ) (i : Nat) : List Nat → List Nat
  | [] => [i]
  | j :: rest =>
    if sims.getD j 0 < sims.getD i 0 then i :: j :: rest
    else j :: insertDesc sims i rest

/-- `np.argsort(-sims)`: all indices of `sims` ordered by decreasing
similarity (tie order is unspecified by numpy's default sort; this model
keeps the original order on ties). -/
def argsortDesc (sims : List ℚ) : List Nat :=
  (List.range sims.length).foldl (fun acc i => insertDesc sims i acc) []

/-- The semantic re-rank stage of `query_faq_chroma`: subset the corpus to
the keyword hits, embed and rank by cosine similarity, keep the top
`min top_k |subset|` and build the match dicts.  The embedding model and the
cosine computation are abstracted as the `sim` oracle (the claims under
verification do not depend on the numeric values). -/
def faqCandidates (sim : String → String → ℚ) (docs : List String)
    (metas : List FaqMeta) (query : String) (topK : Nat) (hits : List Nat) :
    List FaqMatch :=
  let subsetDocs := hits.map (fun i => docs.getD i "")
  let subsetMetas := hits.map (fun i => metas.getD i ⟨"", "", []⟩)
  let sims := subsetDocs.map (fun d => sim query d)
  let topIdx := (argsortDesc sims).take (min topK sims.length)
  topIdx.map (fun i =>
    ⟨(subsetMetas.getD i ⟨"", "", []⟩).question,
     (subsetMetas.getD i ⟨"", "", []⟩).answer,
     sims.getD i 0⟩)

/-- The `FAQ {i} - Q/A` context block of `_synthesize_answer`: entries with
a blank question or answer are excluded. -/
def faqContextBlock (ms : List FaqMatch) : String :=
  String.intercalate "\n\n" (ms.enum.filterMap (fun p =>
    if pyStrip p.2.question = "" || pyStrip p.2.answer = "" then none
    else some ("FAQ " ++ toString (p.1 + 1) ++ " - Q: " ++ pyStrip p.2.question ++
      "\nFAQ " ++ toString (p.1 + 1) ++ " - A: " ++ pyStrip p.2.answer)))

/-- `src/query_faq_chroma.py::_synthesize_answer`: fill the client template
when present (else the generic fallback instructing the model to return the
empty-string sentinel) and call the generation service, abstracted as
`llm`. -/
def synthesizeAnswer (llm : String → String) (template : Option String)
    (query : String) (ms : List FaqMatch) : String :=
  let faqContext := faqContextBlock ms
  let prompt :=
    match template with
    | some t => pyReplace (pyReplace t "\x7bfaq_context\x7d" faqContext) "\x7bquery\x7d" query
    | none =>
      "You are a helpful assistant answering user questions based on an FAQ.\n\n" ++
      "Here are relevant FAQ entries (question and answer):\n\n" ++
      faqContext ++
      "\n\nUser question: " ++ query ++
      "\n\nProvide a concise, direct answer to the user, based only on the FAQ information." ++
      "If the answer is not in the FAQ, return \x27\x27 (empty string)."
  llm prompt

/-- `src/query_faq_chroma.py::query_faq_chroma`.  `docs`/`metas` are the
parallel lists returned by `collection.get`; `sim` abstracts the embedding
plus cosine-similarity pipeline; `llm` the generation service; `template`
the optional client synthesis prompt file. -/
def query_faq_chroma (llm : String → String) (template : Option String)
    (sim : String → String → ℚ) (docs : List String) (metas : List FaqMeta)
    (query : String) (topK : Nat) : Option String :=
  if pyStrip query = "" then none
  else if docs.isEmpty || metas.isEmpty then none
  else
    let hits := keywordMatch query metas
    if hits.isEmpty then none
    else
      let ms := faqCandidates sim docs metas query topK hits
      if ms.isEmpty then none
      else some (synthesizeAnswer llm template query ms)

/-! ## Theorems about the FAQ retriever (C2, C5) -/

/-- If no entry's normalized keywords hit the query, the keyword loop
collects no index. -/
theorem keywordMatchAux_eq_nil {qn : String} :
    ∀ (metas : List FaqMeta),
      (∀ m ∈ metas, ∀ kw ∈ normalizeKeywords m.keywords, pyInStr kw qn = false) →
      ∀ i, keywordMatchAux qn i metas = [] := by
  intro metas
  induction metas with
  | nil => intro _ i; rfl
  | cons m rest ih =>
    intro h i
    have hany : (normalizeKeywords m.keywords).any
        (fun kw => kw ≠ "" && pyInStr kw qn) = false := by
      rw [List.any_eq_false]
      intro kw hkw
      rw [h m (List.mem_cons_self _ _) kw hkw]
      simp
    have hrest := ih (fun m2 hm2 => h m2 (List.mem_cons_of_mem _ hm2)) (i + 1)
    unfold keywordMatchAux
    by_cases hkws : m.keywords.isEmpty
    · rw [if_pos hkws]
      exact hrest
    · rw [if_neg hkws, if_neg (by rw [hany]; simp)]
      exact hrest

/-- C5.  The FAQ retriever reports no match — for every similarity oracle
and every generator, i.e. without the semantic stage or the synthesis stage
influencing the outcome — whenever (a) no FAQ entry has a normalized
keyword phrase occurring as a substring of the normalized query, (b) the
query is empty or blank, or (c) the corpus is empty. -/
theorem faq_keyword_gate (llm : String → String) (template : Option String)
    (sim : String → String → ℚ) (docs : List String) (metas : List FaqMeta)
    (query : String) (topK : Nat) :
    ((∀ m ∈ metas, ∀ kw ∈ normalizeKeywords m.keywords,
        pyInStr kw (String.intercalate " " (normalizeKeywords [query])) = false) →
      query_faq_chroma llm template sim docs metas query topK = none) ∧
    (pyStrip query = "" →
      query_faq_chroma llm template sim docs metas query topK = none) ∧
    (docs = [] ∨ metas = [] →
      query_faq_chroma llm template sim docs metas query topK = none) := by
  refine ⟨?_, ?_, ?_⟩
  · intro h
    unfold query_faq_chroma
    by_cases hq : pyStrip query = ""
    · rw [if_pos hq]
    · rw [if_neg hq]
      by_cases hcorpus : (docs.isEmpty || metas.isEmpty) = true
      · rw [if_pos hcorpus]
      · rw [if_neg hcorpus]
        have hmatch : keywordMatch query metas = [] := by
          unfold keywordMatch
          by_cases h0 : query = ""
          · rw [if_pos h0]
          · rw [if_neg h0]
            by_cases h1 : String.intercalate " " (normalizeKeywords [query]) = ""
            · rw [if_pos h1]
            · rw [if_neg h1]
              exact keywordMatchAux_eq_nil metas h 0
        rw [if_pos (by rw [hmatch]; rfl)]
  · intro hq
    unfold query_faq_chroma
    rw [if_pos hq]
  · intro hcorpus
    unfold query_faq_chroma
    by_cases hq : pyStrip query = ""
    · rw [if_pos hq]
    · rw [if_neg hq]
      rw [if_pos (by rcases hcorpus with h | h <;> simp [h])]

/-- C5 witness: a query with no keyword overlap yields no match even though
the similarity oracle scores everything maximally. -/
theorem faq_keyword_gate_witness :
    (∀ m ∈ [(⟨"Do you ship?", "Yes", ["shipping"]⟩ : FaqMeta)],
      ∀ kw ∈ normalizeKeywords m.keywords,
        pyInStr kw (String.intercalate " "
          (normalizeKeywords ["What are your hours?"])) = false) ∧
    query_faq_chroma (fun _ => "a confident answer") none (fun _ _ => 1)
      ["Do you ship? Yes"] [⟨"Do you ship?", "Yes", ["shipping"]⟩]
      "What are your hours?" 3 = none := by
  refine ⟨by decide, ?_⟩
  exact (faq_keyword_gate (fun _ => "a confident answer") none (fun _ _ => 1)
    ["Do you ship? Yes"] [⟨"Do you ship?", "Yes", ["shipping"]⟩]
    "What are your hours?" 3).1 (by decide)

/-- C2, counterexample.  With one keyword-matching FAQ entry and a
generation service that synthesizes the empty-string sentinel, the code
returns `some ""` — the synthesized text — rather than reporting no match
(`none`) as the claim states. -/
theorem faq_sentinel_not_downgraded_cex :
    query_faq_chroma (fun _ => "") none (fun _ _ => 0)
        ["Q: hours A: 9-5"] [⟨"What are your hours?", "9 to 5", ["hours"]⟩]
        "hours" 3 = some "" ∧
    (some "" : Option String) ≠ none := by
  exact ⟨rfl, by simp⟩

/-- Inserting one index grows the ranking by one. -/
theorem insertDesc_length (sims : List ℚ) (i : Nat) :
    ∀ l : List Nat, (insertDesc sims i l).length = l.length + 1 := by
  intro l
  induction l with
  | nil => rfl
  | cons j rest ih =>
    unfold insertDesc
    by_cases hc : sims.getD j 0 < sims.getD i 0
    · rw [if_pos hc]; rfl
    · rw [if_neg hc]
      simp only [List.length_cons, ih]

/-- `argsortDesc` ranks every index. -/
theorem argsortDesc_length (sims : List ℚ) :
    (argsortDesc sims).length = sims.length := by
  have hfold : ∀ (l : List Nat) (acc : List Nat),
      (l.foldl (fun acc i => insertDesc sims i acc) acc).length =
        acc.length + l.length := by
    intro l
    induction l with
    | nil => intro acc; simp
    | cons x rest ih =>
      intro acc
      simp only [List.foldl_cons, ih, insertDesc_length, List.length_cons]
      omega
  unfold argsortDesc
  rw [hfold]
  simp

/-- The re-rank stage hands `min top_k |hits|` matches to synthesis. -/
theorem faqCandidates_length (sim : String → String → ℚ) (docs : List String)
    (metas : List FaqMeta) (query : String) (topK : Nat) (hits : List Nat) :
    (faqCandidates sim docs metas query topK hits).length =
      min topK hits.length := by
  unfold faqCandidates
  simp only [List.length_map, List.length_take, argsortDesc_length]
  omega

/-- C2, amended: whenever the keyword pre-filter produces at least one hit
(and the top-k bound is positive), `query_faq_chroma` returns the
synthesized text unconditionally — including when it equals the
empty-string sentinel; the empty-sentinel downgrade to "no match" happens
in the caller (`do_execute_prompt`), not in the retriever. -/
theorem faq_returns_synthesized_unconditionally (llm : String → String)
    (template : Option String) (sim : String → String → ℚ) (docs : List String)
    (metas : List FaqMeta) (query : String) (topK : Nat)
    (hq : pyStrip query ≠ "") (hd : docs.isEmpty = false)
    (hm : metas.isEmpty = false)
    (hhits : (keywordMatch query metas).isEmpty = false) (hk : 0 < topK) :
    query_faq_chroma llm template sim docs metas query topK =
      some (synthesizeAnswer llm template query
        (faqCandidates sim docs metas query topK (keywordMatch query metas))) := by
  unfold query_faq_chroma
  rw [if_neg hq, if_neg (by rw [hd, hm]; simp), if_neg (by rw [hhits]; simp)]
  rw [if_neg ?hne]
  case hne =>
    have hlen : 0 < (faqCandidates sim docs metas query topK
        (keywordMatch query metas)).length := by
      rw [faqCandidates_length]
      have : (keywordMatch query metas) ≠ [] := by
        intro hnil; rw [hnil] at hhits; simp at hhits
      have : 0 < (keywordMatch query metas).length := List.length_pos.mpr this
      omega
    have hne2 := List.ne_nil_of_length_pos hlen
    simp [List.isEmpty_iff, hne2]

/-- C2 amended-claim witness: with a synthesizer that returns the sentinel,
the retriever still returns `some ""`. -/
theorem faq_returns_synthesized_witness :
    query_faq_chroma (fun _ => "") none (fun _ _ => 0)
        ["Q: gift cards A: yes"] [⟨"Do you sell gift cards?", "Yes", ["gift"]⟩]
        "gift cards?" 3 =
      some (synthesizeAnswer (fun _ => "") none "gift cards?"
        (faqCandidates (fun _ _ => 0) ["Q: gift cards A: yes"]
          [⟨"Do you sell gift cards?", "Yes", ["gift"]⟩] "gift cards?" 3
          (keywordMatch "gift cards?"
            [⟨"Do you sell gift cards?", "Yes", ["gift"]⟩]))) ∧
    synthesizeAnswer (fun _ => "") none "gift cards?"
        (faqCandidates (fun _ _ => 0) ["Q: gift cards A: yes"]
          [⟨"Do you sell gift cards?", "Yes", ["gift"]⟩] "gift cards?" 3
          (keywordMatch "gift cards?"
            [⟨"Do you sell gift cards?", "Yes", ["gift"]⟩])) = "" := by
  refine ⟨?_, rfl⟩
  exact faq_returns_synthesized_unconditionally (fun _ => "") none (fun _ _ => 0)
    ["Q: gift cards A: yes"] [⟨"Do you sell gift cards?", "Yes", ["gift"]⟩]
    "gift cards?" 3 (by decide) (by decide) (by decide) (by decide) (by decide)

/-! ## Query orchestrator (`src/execute_prompt.py::do_execute_prompt`) -/

/-- The orchestrator's collaborators.  `corrector` is the optional module
level spell corrector; `faq`, `queryType`, `products` and `gen` are the
retrieval/classification/generation calls, each of which may raise
(`Except.error`); `fallthroughTemplate` is the read of
`fall_through_query_type.txt` (missing file → fault).  `gen`'s first
argument is the temperature passed to `generate_params_dict`. -/
structure OrchEnv where
  corrector : Option (String → String)
  faq : String → Except Unit (Option String)
  queryType : String → Except Unit String
  products : String → Except Unit String
  gen : ℚ → String → Except Unit String
  fallthroughTemplate : Except Unit String

/-- The normalized, optionally spell-corrected latest query. -/
def correctedQuery (env : OrchEnv) (query : String) : String :=
  match env.corrector with
  | some fix => fix (pyStrip query)
  | none => pyStrip query

/-- The recovery prompt built in the two `except` branches of
`do_execute_prompt`: the fixed "instruct them to rephrase" prompt — unless a
conversation context is present, in which case the code sends only the
conversation plus the latest query (the `prompt` variable holding the
instruction is discarded). -/
def recoveryPrompt (latest : String) (ctx : Option String) : String :=
  if pyFalsy ctx then
    "User provided a question that broke the querying system. " ++
    "Instruct them to rephrase it. Answer it based on the context " ++
    "you already have so far. Query provided by the user: " ++ latest
  else
    "Conversation so far:\n" ++ pyStrip (ctx.getD "") ++
    "\n\nLatest query: " ++ latest

/-- The fall-through prompt: the filled client template, wrapped in a
multi-turn preamble when a conversation context is present. -/
def fallthroughPrompt (filled latest : String) (ctx : Option String) : String :=
  if pyFalsy ctx then filled
  else
    "You are continuing a multi-turn conversation with a user. " ++
    "Use the dialogue so far plus the latest question to answer.\n\n" ++
    "Conversation so far:\n" ++ pyStrip (ctx.getD "") ++ "\n\n" ++
    "Latest user message: " ++ latest ++ "\n\n" ++
    "Instructions and additional guidance:\n" ++ filled

/-- The part of `do_execute_prompt` after the FAQ attempt reported no
usable answer: classify product-vs-other, run the product workflow (with
its own fail-soft recovery), or fall through to the default template. -/
def classifyBranch (env : OrchEnv) (latest : String) (ctx : Option String) :
    Except Unit (Option String) :=
  match env.queryType latest with
  | .error e => .error e
  | .ok label =>
    if label = "PRODUCT" then
      match env.products latest with
      | .ok r => .ok (some r)
      | .error _ =>
        match env.gen 1 (recoveryPrompt latest ctx) with
        | .error e => .error e
        | .ok t => .ok (some t)
    else
      match env.fallthroughTemplate with
      | .error e => .error e
      | .ok base =>
        match env.gen (1/2)
            (fallthroughPrompt (pyReplace base "\x7bquery\x7d" latest) latest ctx) with
        | .error e => .error e
        | .ok t => .ok (some t)

/-- `src/execute_prompt.py::do_execute_prompt`. -/
def do_execute_prompt (env : OrchEnv) (query : String)
    (conversationContext : Option String) : Except Unit (Option String) :=
  let ctx := trimConversationContext conversationContext 6
  if pyStrip query = "" then .ok none
  else
    let latest := correctedQuery env query
    match env.faq latest with
    | .error _ =>
      match env.gen 1 (recoveryPrompt latest ctx) with
      | .error e => .error e
      | .ok t => .ok (some t)
    | .ok response =>
      match response with
      | some s =>
        if s ≠ "" ∧ s ≠ "N/A" then .ok (some s)
        else classifyBranch env latest ctx
      | none => classifyBranch env latest ctx

/-! ## Theorems about the orchestrator (C4, C10) -/

/-- C10.  When the FAQ retrieval call completes without an exception, the
orchestrator returns its answer exactly when the answer is truthy and not
the literal `"N/A"`; for null, the empty string, or `"N/A"` it instead
proceeds to the product-vs-other classification branch. -/
theorem orchestrator_faq_result_gate (env : OrchEnv) (query : String)
    (ctxIn : Option String) (r : Option String)
    (hq : pyStrip query ≠ "")
    (hfaq : env.faq (correctedQuery env query) = .ok r) :
    ((∃ s, r = some s ∧ s ≠ "" ∧ s ≠ "N/A") →
      do_execute_prompt env query ctxIn = .ok r) ∧
    ((r = none ∨ r = some "" ∨ r = some "N/A") →
      do_execute_prompt env query ctxIn =
        classifyBranch env (correctedQuery env query)
          (trimConversationContext ctxIn 6)) := by
  constructor
  · rintro ⟨s, rfl, hs1, hs2⟩
    simp only [do_execute_prompt]
    rw [if_neg hq, hfaq]
    simp only [if_pos (And.intro hs1 hs2)]
  · intro hr
    simp only [do_execute_prompt]
    rw [if_neg hq, hfaq]
    rcases hr with rfl | rfl | rfl
    · rfl
    · dsimp only
      rw [if_neg (by simp)]
    · dsimp only
      rw [if_neg (by simp)]

/-- A demo environment whose FAQ stage answers `"N/A"`. -/
def naEnv : OrchEnv where
  corrector := none
  faq := fun _ => .ok (some "N/A")
  queryType := fun _ => .ok "OTHER"
  products := fun _ => .ok "product answer"
  gen := fun _ p => .ok p
  fallthroughTemplate := .ok "Please answer: \x7bquery\x7d"

/-- C10 witness: an FAQ answer of exactly `"N/A"` is not returned; the
orchestrator proceeds to classification (and here falls through to the
default template). -/
theorem orchestrator_faq_result_gate_witness :
    do_execute_prompt naEnv "Are you hiring?" none =
      classifyBranch naEnv (correctedQuery naEnv "Are you hiring?")
        (trimConversationContext none 6) ∧
    do_execute_prompt naEnv "Are you hiring?" none =
      .ok (some "Please answer: Are you hiring?") := by
  refine ⟨?_, rfl⟩
  exact (orchestrator_faq_result_gate naEnv "Are you hiring?" none (some "N/A")
    (by decide) rfl).2 (Or.inr (Or.inr rfl))

/-- An environment whose FAQ stage raises and whose generation service
echoes its prompt, exposing exactly what the recovery branch sends to the
LLM. -/
def faultyFaqEnv : OrchEnv where
  corrector := none
  faq := fun _ => .error ()
  queryType := fun _ => .ok "OTHER"
  products := fun _ => .ok "product answer"
  gen := fun _ p => .ok p
  fallthroughTemplate := .ok "T: \x7bquery\x7d"

/-- C4, counterexample.  When the FAQ call raises *and a conversation
context is present*, the recovery branch does not send the fixed "please
rephrase" instruction prompt: the `combined` prompt it builds replaces (not
prepends) the instruction, so the text sent to the generation service —
echoed here — contains no "rephrase" instruction at all, while without
context it does. -/
theorem orchestrator_recovery_prompt_cex :
    do_execute_prompt faultyFaqEnv "hello" (some "User: hi") =
      .ok (some "Conversation so far:\nUser: hi\n\nLatest query: hello") ∧
    pyInStr "rephrase" "Conversation so far:\nUser: hi\n\nLatest query: hello" = false ∧
    pyInStr "rephrase" (recoveryPrompt "hello" none) = true := by
  exact ⟨rfl, by decide, by decide⟩

/-- C4, amended: whenever the FAQ retrieval call or the product retrieval
call raises, the orchestrator recovers by calling the generation service —
with the fixed "please rephrase your question" instruction prompt when no
conversation context is available, or with a conversation-so-far plus
latest-query prompt when one is — and returns the generated text, so the
caller receives a natural-language answer and never a raw error (provided
the recovery generation call itself succeeds). -/
theorem orchestrator_recovers_from_retrieval_faults (env : OrchEnv)
    (query : String) (ctxIn : Option String) (e : Unit) (t : String)
    (hq : pyStrip query ≠ "") :
    (env.faq (correctedQuery env query) = .error e →
      env.gen 1 (recoveryPrompt (correctedQuery env query)
        (trimConversationContext ctxIn 6)) = .ok t →
      do_execute_prompt env query ctxIn = .ok (some t)) ∧
    (∀ r, env.faq (correctedQuery env query) = .ok r →
      (r = none ∨ r = some "" ∨ r = some "N/A") →
      env.queryType (correctedQuery env query) = .ok "PRODUCT" →
      env.products (correctedQuery env query) = .error e →
      env.gen 1 (recoveryPrompt (correctedQuery env query)
        (trimConversationContext ctxIn 6)) = .ok t →
      do_execute_prompt env query ctxIn = .ok (some t)) := by
  constructor
  · intro hfaq hgen
    simp only [do_execute_prompt]
    rw [if_neg hq, hfaq, hgen]
  · intro r hfaq hr hlabel hprod hgen
    have hcls : classifyBranch env (correctedQuery env query)
        (trimConversationContext ctxIn 6) = .ok (some t) := by
      unfold classifyBranch
      rw [hlabel]
      dsimp only
      rw [if_pos rfl, hprod, hgen]
    simp only [do_execute_prompt]
    rw [if_neg hq, hfaq]
    rcases hr with rfl | rfl | rfl
    · exact hcls
    · dsimp only
      rw [if_neg (by simp)]
      exact hcls
    · dsimp only
      rw [if_neg (by simp)]
      exact hcls

/-- An environment whose product stage raises after a PRODUCT
classification. -/
def faultyProductEnv : OrchEnv where
  corrector := none
  faq := fun _ => .ok none
  queryType := fun _ => .ok "PRODUCT"
  products := fun _ => .error ()
  gen := fun _ p => .ok ("Apology: " ++ p)
  fallthroughTemplate := .ok "T: \x7bquery\x7d"

/-- C4 witness: a product-stage fault (no context available) is answered by
generating from the fixed rephrase-instruction prompt. -/
theorem orchestrator_recovers_witness :
    do_execute_prompt faultyProductEnv "red jacket" none =
      .ok (some ("Apology: " ++ recoveryPrompt "red jacket" none)) := by
  exact (orchestrator_recovers_from_retrieval_faults faultyProductEnv
    "red jacket" none () ("Apology: " ++ recoveryPrompt "red jacket" none)
    (by decide)).2 none rfl (Or.inl rfl) rfl rfl rfl

/-! ## Token corrector (`src/spell_corrector.py`) -/

/-- Reference Levenshtein distance, written as the textbook recursion whose
cell formula mirrors the DP below: peel the heads, take the minimum of
insert (+1 on the second list), delete (+1 on the first list) and
substitute (+0/1 on both). -/
def specLev : List Char → List Char → Nat
  | [], v => v.length
  | u, [] => u.length
  | x :: u, y :: v =>
    min (specLev (x :: u) v + 1)
      (min (specLev u (y :: v) + 1) (specLev u v + (if x = y then 0 else 1)))
termination_by u v => u.length + v.length
decreasing_by
  · simp only [List.length_cons]; omega
  · simp only [List.length_cons]; omega
  · simp only [List.length_cons]; omega

/-- The inner loop of `_levenshtein`: extend the current row one cell at a
time.  `pjm1`/`pj :: pt` walk the previous row, `last` is the cell to the
left in the current row. -/
def dpRowAux (ca : Char) : List Char → List Nat → Nat → Nat → List Nat
  | [], _, _, _ => []
  | _ :: _, [], _, _ => []
  | cb :: bs, pj :: pt, pjm1, last =>
    min (last + 1) (min (pj + 1) (pjm1 + (if ca = cb then 0 else 1))) ::
      dpRowAux ca bs pt pj
        (min (last + 1) (min (pj + 1) (pjm1 + (if ca = cb then 0 else 1))))

/-- The outer loop of `_levenshtein`: one row per character of `a`, rows
indexed from 1; returns the final `previous_row`. -/
def dpRows (b : List Char) : List Char → List Nat → Nat → List Nat
  | [], prev, _ => prev
  | ca :: as, prev, i =>
    dpRows b as (i :: dpRowAux ca b prev.tail (prev.headD 0) i) (i + 1)

/-- The row DP of `_levenshtein` on two character lists (`a` the row
string). -/
def dp (a b : List Char) : Nat :=
  (dpRows b a (List.range (b.length + 1)) 1).getLastD 0

/-- `src/spell_corrector.py::SpellCorrector._levenshtein`: the early-out
shortcuts, the swap that makes the first argument the shorter string, and
the row DP. -/
def levenshtein (a b : String) : Nat :=
  if a = b then 0
  else if a = "" then b.data.length
  else if b = "" then a.data.length
  else if b.data.length < a.data.length then dp b.data a.data
  else dp a.data b.data

/-- `_best_candidate`'s scan: `best`/`bestDist` is the best candidate so
far (distance 3 = "none yet"); words farther than 2 in length are skipped;
a strictly better candidate replaces it and a distance-1 hit stops the
scan. -/
def bestCandidateAux (word : String) : List String → Option String → Nat → Option String
  | [], best, _ => best
  | w :: ws, best, bestDist =>
    if 2 < ((w.data.length : ℤ) - word.data.length).natAbs then
      bestCandidateAux word ws best bestDist
    else
      if levenshtein word w < bestDist then
        if levenshtein word w = 1 then some w
        else bestCandidateAux word ws (some w) (levenshtein word w)
      else bestCandidateAux word ws best bestDist

/-- `src/spell_corrector.py::SpellCorrector._best_candidate`.  The
dictionary is a Python set of lowercased words; this model fixes one
iteration order as a list. -/
def bestCandidate (dict : List String) (word : String) : Option String :=
  bestCandidateAux word dict none 3

/-- Python `str.lower()` character map (ASCII). -/
def pyLowerStr (s : String) : String :=
  String.mk (s.data.map Char.toLower)

/-- Python `str.upper()` character map (ASCII). -/
def pyUpperStr (s : String) : String :=
  String.mk (s.data.map Char.toUpper)

/-- Python `str.isupper()` (ASCII): no lowercase character and at least one
uppercase character. -/
def pyIsUpper (s : String) : Bool :=
  s.data.all (fun c => !c.isLower) && s.data.any (fun c => c.isUpper)

/-- Python `str.islower()` (ASCII): no uppercase character and at least one
lowercase character. -/
def pyIsLower (s : String) : Bool :=
  s.data.all (fun c => !c.isUpper) && s.data.any (fun c => c.isLower)

/-- Python `str.capitalize()`: first character uppercased, the rest
lowercased. -/
def pyCapitalize (s : String) : String :=
  match s.data with
  | [] => ""
  | c :: cs => String.mk (c.toUpper :: cs.map Char.toLower)

/-- `SpellCorrector._apply_case`.  (`original` is a non-empty alphabetic
token at every call site; `headD` stands in for the `original[0]`
indexing.) -/
def applyCase (original correctedLower : String) : String :=
  if pyIsUpper original then pyUpperStr correctedLower
  else if (original.data.headD ' ').isUpper &&
      pyIsLower (String.mk original.data.tail) then pyCapitalize correctedLower
  else correctedLower

/-- `SpellCorrector._correct_word_preserve_case`. -/
def correctWordPreserveCase (dict : List String) (word : String) : String :=
  if pyLowerStr word ∈ dict then word
  else
    match bestCandidate dict (pyLowerStr word) with
    | none => word
    | some candidate => applyCase word candidate

/-- `SpellCorrector._tokenize`'s loop: group the text into maximal runs of
alphabetic and non-alphabetic characters, preserving order. -/
def tokenizeAux : List Char → List Char → Bool → List String
  | current, [], _ => if current.isEmpty then [] else [String.mk current]
  | current, ch :: rest, isAlphaState =>
    if ch.isAlpha = isAlphaState then tokenizeAux (current ++ [ch]) rest isAlphaState
    else
      (if current.isEmpty then [] else [String.mk current]) ++
        tokenizeAux [ch] rest ch.isAlpha

/-- `SpellCorrector._tokenize`. -/
def tokenize (text : String) : List String :=
  match text.data with
  | [] => []
  | c :: _ => tokenizeAux [] text.data c.isAlpha

/-- Python `"".join(tokens)`. -/
def concatStrings : List String → String
  | [] => ""
  | s :: rest => s ++ concatStrings rest

/-- Python `str.isalpha()`: non-empty and all alphabetic. -/
def pyStrIsAlpha (s : String) : Bool :=
  !s.data.isEmpty && s.data.all Char.isAlpha

/-- `SpellCorrector.fix_string`: correct each alphabetic token, keep every
other token, and re-join. -/
def fix_string (dict : List String) (text : String) : String :=
  concatStrings ((tokenize text).map (fun token =>
    if pyStrIsAlpha token then correctWordPreserveCase dict token else token))

/-! ## Theorems about the token corrector (C8) -/

theorem specLev_nil_left (v : List Char) : specLev [] v = v.length := by
  rw [specLev]

theorem specLev_nil_right (u : List Char) : specLev u [] = u.length := by
  cases u with
  | nil => rw [specLev]
  | cons x u =>
    rw [specLev]
    simp

theorem specLev_cons (x y : Char) (u v : List Char) :
    specLev (x :: u) (y :: v) =
      min (specLev (x :: u) v + 1)
        (min (specLev u (y :: v) + 1) (specLev u v + (if x = y then 0 else 1))) := by
  rw [specLev]

theorem specLev_self (u : List Char) : specLev u u = 0 := by
  induction u with
  | nil => rw [specLev_nil_left]; rfl
  | cons x u ih =>
    rw [specLev_cons]
    simp only [ih, eq_self_iff_true, if_true, Nat.add_zero]
    omega

theorem specLev_eq_zero : ∀ {u v : List Char}, specLev u v = 0 → u = v := by
  intro u
  induction u with
  | nil =>
    intro v h
    rw [specLev_nil_left] at h
    exact (List.length_eq_zero.mp h).symm
  | cons x u ih =>
    intro v h
    cases v with
    | nil =>
      rw [specLev_nil_right] at h
      simp at h
    | cons y v =>
      rw [specLev_cons] at h
      have hc : specLev u v + (if x = y then 0 else 1) = 0 := by omega
      have hxy : x = y := by
        by_cases hxy : x = y
        · exact hxy
        · rw [if_neg hxy] at hc; omega
      have huv : u = v := ih (by omega)
      rw [hxy, huv]

theorem specLev_comm_aux :
    ∀ (n : Nat) (u v : List Char), u.length + v.length = n →
      specLev u v = specLev v u := by
  intro n
  induction n using Nat.strong_induction_on with
  | _ n ih =>
    intro u v hn
    cases u with
    | nil =>
      rw [specLev_nil_left, specLev_nil_right]
    | cons x u =>
      cases v with
      | nil => rw [specLev_nil_left, specLev_nil_right]
      | cons y v =>
        rw [specLev_cons, specLev_cons]
        have h1 : specLev (x :: u) v = specLev v (x :: u) :=
          ih ((x :: u).length + v.length) (by simp at hn ⊢; omega) _ _ rfl
        have h2 : specLev u (y :: v) = specLev (y :: v) u :=
          ih (u.length + (y :: v).length) (by simp at hn ⊢; omega) _ _ rfl
        have h3 : specLev u v = specLev v u :=
          ih (u.length + v.length) (by simp at hn ⊢; omega) _ _ rfl
        have h4 : (if x = y then 0 else 1) = (if y = x then 0 else 1) := by
          by_cases hxy : x = y
          · rw [if_pos hxy, if_pos hxy.symm]
          · rw [if_neg hxy, if_neg (fun h => hxy h.symm)]
        rw [h1, h2, h3, h4]
        omega

theorem specLev_comm (u v : List Char) : specLev u v = specLev v u :=
  specLev_comm_aux (u.length + v.length) u v rfl

theorem specLev_ge_sub :
    ∀ (n : Nat) (u v : List Char), u.length + v.length = n →
      u.length - v.length ≤ specLev u v ∧ v.length - u.length ≤ specLev u v := by
  intro n
  induction n using Nat.strong_induction_on with
  | _ n ih =>
    intro u v hn
    cases u with
    | nil =>
      rw [specLev_nil_left]
      simp
    | cons x u =>
      cases v with
      | nil =>
        rw [specLev_nil_right]
        simp
      | cons y v =>
        rw [specLev_cons]
        have h1 := ih ((x :: u).length + v.length) (by simp at hn ⊢; omega) (x :: u) v rfl
        have h2 := ih (u.length + (y :: v).length) (by simp at hn ⊢; omega) u (y :: v) rfl
        have h3 := ih (u.length + v.length) (by simp at hn ⊢; omega) u v rfl
        have h4 : (if x = y then 0 else 1) = 0 ∨ (if x = y then 0 else 1) = 1 := by
          by_cases hxy : x = y
          · left; rw [if_pos hxy]
          · right; rw [if_neg hxy]
        simp only [List.length_cons] at h1 h2 h3 ⊢
        omega

/-- The semantic content of one DP row for row string `ru` (reversed prefix
of `a`): the cells for the successive extensions of the column prefix. -/
def rowFor (ru : List Char) : List Char → List Char → List Nat
  | _, [] => []
  | rv, cb :: bs => specLev ru (cb :: rv) :: rowFor ru (cb :: rv) bs

theorem dpRowAux_spec (ca : Char) (ru : List Char) :
    ∀ (bs rv : List Char),
      dpRowAux ca bs (rowFor ru rv bs) (specLev ru rv) (specLev (ca :: ru) rv) =
        rowFor (ca :: ru) rv bs := by
  intro bs
  induction bs with
  | nil => intro rv; rfl
  | cons cb bs ih =>
    intro rv
    simp only [rowFor, dpRowAux]
    have hcell : min (specLev (ca :: ru) rv + 1)
        (min (specLev ru (cb :: rv) + 1)
          (specLev ru rv + (if ca = cb then 0 else 1))) =
        specLev (ca :: ru) (cb :: rv) := (specLev_cons ca cb ru rv).symm
    rw [hcell, ih (cb :: rv)]

theorem dpRows_spec (b : List Char) :
    ∀ (as ru : List Char) (i : Nat), i = ru.length + 1 →
      dpRows b as (specLev ru [] :: rowFor ru [] b) i =
        specLev (as.reverse ++ ru) [] :: rowFor (as.reverse ++ ru) [] b := by
  intro as
  induction as with
  | nil =>
    intro ru i _
    simp [dpRows]
  | cons ca as ih =>
    intro ru i hi
    subst hi
    simp only [dpRows, List.tail_cons, List.headD_cons]
    rw [show ru.length + 1 = specLev (ca :: ru) [] by
      rw [specLev_nil_right, List.length_cons]]
    rw [dpRowAux_spec ca ru b []]
    rw [ih (ca :: ru) (specLev (ca :: ru) [] + 1) (by rw [specLev_nil_right])]
    rw [List.reverse_cons, List.append_assoc, List.singleton_append]

theorem rowFor_nil_ru : ∀ (bs rv : List Char),
    rowFor [] rv bs = List.range' (rv.length + 1) bs.length := by
  intro bs
  induction bs with
  | nil => intro rv; rfl
  | cons cb bs ih =>
    intro rv
    simp only [rowFor, List.length_cons, List.range'_succ]
    rw [specLev_nil_left, List.length_cons, ih (cb :: rv), List.length_cons]

theorem rowFor_getLastD (ru : List Char) :
    ∀ (bs rv : List Char) (x : Nat), bs ≠ [] →
      (rowFor ru rv bs).getLastD x = specLev ru (bs.reverse ++ rv) := by
  intro bs
  induction bs with
  | nil => intro rv x h; exact absurd rfl h
  | cons cb bs ih =>
    intro rv x h
    simp only [rowFor, List.getLastD_cons]
    cases bs with
    | nil => simp [rowFor]
    | cons cb2 bs2 =>
      rw [ih (cb :: rv) _ (by simp)]
      simp [List.append_assoc]

theorem dp_eq_specLev (a b : List Char) : dp a b = specLev a.reverse b.reverse := by
  unfold dp
  have hinit : List.range (b.length + 1) = specLev [] [] :: rowFor [] [] b := by
    rw [List.range_eq_range', List.range'_succ, specLev_nil_left]
    rw [rowFor_nil_ru b []]
    rfl
  rw [hinit, dpRows_spec b a [] 1 (by simp), List.append_nil, List.getLastD_cons]
  cases b with
  | nil =>
    simp only [rowFor, List.getLastD_nil, List.reverse_nil]
  | cons cb bs =>
    rw [rowFor_getLastD a.reverse (cb :: bs) [] _ (by simp), List.append_nil]

theorem levenshtein_eq_specLev (a b : String) :
    levenshtein a b = specLev a.data.reverse b.data.reverse := by
  unfold levenshtein
  by_cases hab : a = b
  · rw [if_pos hab, hab, specLev_self]
  · rw [if_neg hab]
    by_cases ha : a = ""
    · rw [if_pos ha, ha]
      show b.data.length = specLev ([] : List Char).reverse b.data.reverse
      rw [List.reverse_nil, specLev_nil_left, List.length_reverse]
    · rw [if_neg ha]
      by_cases hb : b = ""
      · rw [if_pos hb, hb]
        show a.data.length = specLev a.data.reverse ([] : List Char).reverse
        rw [List.reverse_nil, specLev_nil_right, List.length_reverse]
      · rw [if_neg hb]
        by_cases hlen : b.data.length < a.data.length
        · rw [if_pos hlen, dp_eq_specLev, specLev_comm]
        · rw [if_neg hlen, dp_eq_specLev]

theorem levenshtein_self (a : String) : levenshtein a a = 0 := by
  unfold levenshtein
  rw [if_pos rfl]

theorem levenshtein_eq_zero_iff (a b : String) : levenshtein a b = 0 ↔ a = b := by
  constructor
  · intro h
    rw [levenshtein_eq_specLev] at h
    have h2 := specLev_eq_zero h
    have h3 : a.data = b.data := by
      have h4 := congrArg List.reverse h2
      simpa using h4
    exact String.ext h3
  · intro h
    rw [h]
    exact levenshtein_self b

theorem levenshtein_ge_lendiff (a b : String) :
    a.data.length - b.data.length ≤ levenshtein a b ∧
      b.data.length - a.data.length ≤ levenshtein a b := by
  rw [levenshtein_eq_specLev]
  have h := specLev_ge_sub (a.data.reverse.length + b.data.reverse.length)
    a.data.reverse b.data.reverse rfl
  simpa [List.length_reverse] using h

/-- Loop invariant of `_best_candidate`'s scan, threading:
`bd ≤ 3`, `best = some c → levenshtein word c = bd ≤ 2`, `best = none →
bd = 3`, and (for the distance-1 early exit) that every dictionary word is
at distance ≥ 1. -/
theorem bestCandidateAux_spec (word : String) :
    ∀ (ws : List String) (best : Option String) (bd : Nat),
      bd ≤ 3 →
      (∀ c, best = some c → levenshtein word c = bd ∧ bd ≤ 2) →
      (best = none → bd = 3) →
      (∀ d ∈ ws, 1 ≤ levenshtein word d) →
      (∀ c, bestCandidateAux word ws best bd = some c →
        levenshtein word c ≤ 2 ∧ levenshtein word c ≤ bd ∧
          (c ∈ ws ∨ best = some c) ∧
          ∀ d ∈ ws, levenshtein word c ≤ levenshtein word d) ∧
      (bestCandidateAux word ws best bd = none →
        best = none ∧ ∀ d ∈ ws, 3 ≤ levenshtein word d) := by
  intro ws
  induction ws with
  | nil =>
    intro best bd hbd hbest hnone hpos
    constructor
    · intro c hc
      simp only [bestCandidateAux] at hc
      obtain ⟨h1, h2⟩ := hbest c hc
      exact ⟨by omega, by omega, Or.inr hc, by simp⟩
    · intro hc
      simp only [bestCandidateAux] at hc
      exact ⟨hc, by simp⟩
  | cons w ws ih =>
    intro best bd hbd hbest hnone hpos
    have hposTail : ∀ d ∈ ws, 1 ≤ levenshtein word d :=
      fun d hd => hpos d (List.mem_cons_of_mem _ hd)
    have hposW : 1 ≤ levenshtein word w := hpos w (List.mem_cons_self _ _)
    by_cases hskip : 2 < ((w.data.length : ℤ) - word.data.length).natAbs
    · have hw3 : 3 ≤ levenshtein word w := by
        have hd := levenshtein_ge_lendiff word w
        omega
      have hIH := ih best bd hbd hbest hnone hposTail
      constructor
      · intro c hc
        simp only [bestCandidateAux, if_pos hskip] at hc
        obtain ⟨h1, h2, h3, h4⟩ := hIH.1 c hc
        refine ⟨h1, h2, ?_, ?_⟩
        · rcases h3 with h3 | h3
          · exact Or.inl (List.mem_cons_of_mem _ h3)
          · exact Or.inr h3
        · intro d hd
          rcases List.mem_cons.mp hd with rfl | hd
          · omega
          · exact h4 d hd
      · intro hc
        simp only [bestCandidateAux, if_pos hskip] at hc
        obtain ⟨h1, h2⟩ := hIH.2 hc
        refine ⟨h1, ?_⟩
        intro d hd
        rcases List.mem_cons.mp hd with rfl | hd
        · exact hw3
        · exact h2 d hd
    · by_cases hlt : levenshtein word w < bd
      · by_cases hone : levenshtein word w = 1
        · constructor
          · intro c hc
            simp only [bestCandidateAux, if_neg hskip, if_pos hlt, if_pos hone] at hc
            injection hc with hc
            subst hc
            refine ⟨by omega, by omega, Or.inl (List.mem_cons_self _ _), ?_⟩
            intro d hd
            rcases List.mem_cons.mp hd with rfl | hd
            · omega
            · have := hposTail d hd
              omega
          · intro hc
            simp only [bestCandidateAux, if_neg hskip, if_pos hlt, if_pos hone] at hc
            exact absurd hc (by simp)
        · have hIH := ih (some w) (levenshtein word w) (by omega)
            (fun c hc => by
              injection hc with hc
              subst hc
              exact ⟨rfl, by omega⟩)
            (fun h => by simp at h)
            hposTail
          constructor
          · intro c hc
            simp only [bestCandidateAux, if_neg hskip, if_pos hlt, if_neg hone] at hc
            obtain ⟨g1, g2, g3, g4⟩ := hIH.1 c hc
            refine ⟨g1, by omega, ?_, ?_⟩
            · rcases g3 with g3 | g3
              · exact Or.inl (List.mem_cons_of_mem _ g3)
              · injection g3 with g3
                subst g3
                exact Or.inl (List.mem_cons_self _ _)
            · intro d hd
              rcases List.mem_cons.mp hd with rfl | hd
              · omega
              · exact g4 d hd
          · intro hc
            simp only [bestCandidateAux, if_neg hskip, if_pos hlt, if_neg hone] at hc
            obtain ⟨g1, _⟩ := hIH.2 hc
            exact absurd g1 (by simp)
      · have hIH := ih best bd hbd hbest hnone hposTail
        constructor
        · intro c hc
          simp only [bestCandidateAux, if_neg hskip, if_neg hlt] at hc
          obtain ⟨g1, g2, g3, g4⟩ := hIH.1 c hc
          refine ⟨g1, g2, ?_, ?_⟩
          · rcases g3 with g3 | g3
            · exact Or.inl (List.mem_cons_of_mem _ g3)
            · exact Or.inr g3
          · intro d hd
            rcases List.mem_cons.mp hd with rfl | hd
            · omega
            · exact g4 d hd
        · intro hc
          simp only [bestCandidateAux, if_neg hskip, if_neg hlt] at hc
          obtain ⟨g1, g2⟩ := hIH.2 hc
          refine ⟨g1, ?_⟩
          intro d hd
          rcases List.mem_cons.mp hd with rfl | hd
          · have := hnone g1
            omega
          · exact g2 d hd

/-- `_best_candidate` on a word not in the dictionary: a returned candidate
is a dictionary word within distance 2 of minimal distance over the whole
dictionary; `None` means every dictionary word is at distance ≥ 3. -/
theorem bestCandidate_spec (dict : List String) (word : String)
    (hword : word ∉ dict) :
    (∀ c, bestCandidate dict word = some c →
      c ∈ dict ∧ levenshtein word c ≤ 2 ∧
        ∀ d ∈ dict, levenshtein word c ≤ levenshtein word d) ∧
    (bestCandidate dict word = none → ∀ d ∈ dict, 3 ≤ levenshtein word d) := by
  have hpos : ∀ d ∈ dict, 1 ≤ levenshtein word d := by
    intro d hd
    by_contra hlt
    have h0 : levenshtein word d = 0 := by omega
    have heq : word = d := (levenshtein_eq_zero_iff word d).mp h0
    rw [← heq] at hd
    exact hword hd
  have h := bestCandidateAux_spec word dict none 3 le_rfl (by simp)
    (fun _ => rfl) hpos
  constructor
  · intro c hc
    obtain ⟨h1, _, h3, h4⟩ := h.1 c hc
    rcases h3 with h3 | h3
    · exact ⟨h3, h1, h4⟩
    · simp at h3
  · intro hc
    exact (h.2 hc).2

theorem strAppend_assoc (a b c : String) : a ++ b ++ c = a ++ (b ++ c) :=
  String.ext (List.append_assoc a.data b.data c.data)

theorem concatStrings_append : ∀ l1 l2 : List String,
    concatStrings (l1 ++ l2) = concatStrings l1 ++ concatStrings l2 := by
  intro l1 l2
  induction l1 with
  | nil => rfl
  | cons s l1 ih =>
    show s ++ concatStrings (l1 ++ l2) = (s ++ concatStrings l1) ++ concatStrings l2
    rw [ih, strAppend_assoc]

/-- The tokenizer loop flushes exactly the characters it has consumed. -/
theorem tokenizeAux_concat : ∀ (rest current : List Char) (st : Bool),
    concatStrings (tokenizeAux current rest st) =
      String.mk current ++ String.mk rest := by
  intro rest
  induction rest with
  | nil =>
    intro current st
    simp only [tokenizeAux]
    by_cases h : current.isEmpty
    · rw [if_pos h]
      have hnil : current = [] := List.isEmpty_iff.mp h
      subst hnil
      rfl
    · rw [if_neg h]
      apply String.ext
      show current ++ [] = current ++ []
      rfl
  | cons ch rest ih =>
    intro current st
    simp only [tokenizeAux]
    by_cases h : ch.isAlpha = st
    · rw [if_pos h, ih]
      apply String.ext
      show (current ++ [ch]) ++ rest = current ++ (ch :: rest)
      simp
    · rw [if_neg h, concatStrings_append, ih [ch] ch.isAlpha]
      by_cases hcur : current.isEmpty
      · rw [if_pos hcur]
        have hnil : current = [] := List.isEmpty_iff.mp hcur
        subst hnil
        apply String.ext
        show [] ++ ([ch] ++ rest) = [] ++ (ch :: rest)
        rfl
      · rw [if_neg hcur]
        apply String.ext
        show (current ++ []) ++ ([ch] ++ rest) = current ++ (ch :: rest)
        simp

/-- The whitespace/punctuation skeleton is preserved: the tokens
concatenate back to the input text. -/
theorem tokenize_concat (text : String) : concatStrings (tokenize text) = text := by
  obtain ⟨l⟩ := text
  cases l with
  | nil => rfl
  | cons c cs =>
    show concatStrings (tokenizeAux [] (c :: cs) c.isAlpha) = String.mk (c :: cs)
    rw [tokenizeAux_concat]
    apply String.ext
    show [] ++ (c :: cs) = c :: cs
    rfl

/-- C8.  The token corrector: (1) the output is the per-token image of the
token decomposition and (2) that decomposition concatenates back to the
input, so the whitespace/punctuation skeleton is preserved and
non-alphabetic tokens stay in place (3); (4) an alphabetic token whose
lowercase form is in the dictionary is returned unchanged; (5) for one not
in the dictionary, if some dictionary word is within edit distance 2 the
token is replaced by a minimal-distance dictionary word with the original
case pattern reapplied, and if none is, the token is returned unchanged;
(6)-(8) the case pattern reapplication: all-upper → all-upper, capitalized
→ capitalized, else the (lowercase) candidate itself. -/
theorem token_corrector_contract (dict : List String) (text : String) :
    (fix_string dict text = concatStrings ((tokenize text).map (fun token =>
      if pyStrIsAlpha token then correctWordPreserveCase dict token else token))) ∧
    (concatStrings (tokenize text) = text) ∧
    (∀ t : String, pyStrIsAlpha t = false →
      (if pyStrIsAlpha t then correctWordPreserveCase dict t else t) = t) ∧
    (∀ t : String, pyLowerStr t ∈ dict → correctWordPreserveCase dict t = t) ∧
    (∀ t : String, pyLowerStr t ∉ dict →
      ((∃ d ∈ dict, levenshtein (pyLowerStr t) d ≤ 2) →
        ∃ c ∈ dict, correctWordPreserveCase dict t = applyCase t c ∧
          levenshtein (pyLowerStr t) c ≤ 2 ∧
          ∀ d ∈ dict, levenshtein (pyLowerStr t) c ≤ levenshtein (pyLowerStr t) d) ∧
      ((∀ d ∈ dict, ¬ levenshtein (pyLowerStr t) d ≤ 2) →
        correctWordPreserveCase dict t = t)) ∧
    (∀ t c : String, pyIsUpper t = true → applyCase t c = pyUpperStr c) ∧
    (∀ t c : String, pyIsUpper t = false →
      ((t.data.headD ' ').isUpper && pyIsLower (String.mk t.data.tail)) = true →
      applyCase t c = pyCapitalize c) ∧
    (∀ t c : String, pyIsUpper t = false →
      ((t.data.headD ' ').isUpper && pyIsLower (String.mk t.data.tail)) = false →
      applyCase t c = c) := by
  refine ⟨rfl, tokenize_concat text, ?_, ?_, ?_, ?_, ?_, ?_⟩
  · intro t ht
    rw [if_neg (by rw [ht]; simp)]
  · intro t ht
    unfold correctWordPreserveCase
    rw [if_pos ht]
  · intro t ht
    have hspec := bestCandidate_spec dict (pyLowerStr t) ht
    constructor
    · rintro ⟨d, hd, hdist⟩
      rcases hcand : bestCandidate dict (pyLowerStr t) with _ | c
      · have := hspec.2 hcand d hd
        omega
      · obtain ⟨h1, h2, h3⟩ := hspec.1 c hcand
        refine ⟨c, h1, ?_, h2, h3⟩
        unfold correctWordPreserveCase
        rw [if_neg ht, hcand]
    · intro hfar
      unfold correctWordPreserveCase
      rw [if_neg ht]
      rcases hcand : bestCandidate dict (pyLowerStr t) with _ | c
      · rfl
      · obtain ⟨h1, h2, _⟩ := hspec.1 c hcand
        exact absurd h2 (hfar c h1)
  · intro t c ht
    unfold applyCase
    rw [if_pos ht]
  · intro t c ht hcap
    unfold applyCase
    rw [if_neg (by rw [ht]; simp), if_pos hcap]
  · intro t c ht hcap
    unfold applyCase
    rw [if_neg (by rw [ht]; simp), if_neg (by rw [hcap]; simp)]

/-- C8 witness: with dictionary `{"the"}`, the unknown token `"hte"` (edit
distance 2 from `"the"`) is corrected to the unique minimal candidate; in a
full string, punctuation and out-of-range tokens are untouched and the
all-upper case pattern is reapplied. -/
theorem token_corrector_contract_witness :
    (∃ c ∈ ["the"], correctWordPreserveCase ["the"] "hte" = applyCase "hte" c ∧
      levenshtein (pyLowerStr "hte") c ≤ 2 ∧
      ∀ d ∈ ["the"], levenshtein (pyLowerStr "hte") c ≤
        levenshtein (pyLowerStr "hte") d) ∧
    correctWordPreserveCase ["the"] "hte" = "the" ∧
    fix_string ["the"] "hte cat, HTE!" = "the cat, THE!" := by
  refine ⟨?_, by decide, by decide⟩
  exact ((token_corrector_contract ["the"] "x").2.2.2.2.1 "hte" (by decide)).1
    ⟨"the", by decide, by decide⟩

end ChatbotServer
